import Mathlib

/-
Shallow embedding of the slotted-page record manager in
src/HeapPage/spacemgr/heappage.cpp.  The page header fields, the slot
directory and the data region are modelled as explicit record fields;
the slot directory and the data region are total functions on Int so
that reads outside the initialised region (which the C++ code performs,
e.g. DeleteRecord has no range check) return well-defined stale values.
Loops are translated to structural recursion on an explicit fuel that
equals the exact number of iterations the C++ loop performs.
-/

namespace HeapPageModel

/-- Status codes of the operations.  Modelled from the spec: the enum is
declared in the missing header db.h; the spec maps InsufficientSpace and
EndOfSequence to DONE and RecordNotFound to FAIL, matching the return
statements in heappage.cpp. -/
inductive Status where
  | OK : Status
  | DONE : Status
  | FAIL : Status
deriving DecidableEq

/-- A slot directory entry.  Modelled from the spec: the struct is in the
missing header heappage.h; the spec fixes it as two int32 fields, offset
and length, with offset -1 the deleted sentinel. -/
structure Slot where
  offset : Int
  length : Int
deriving DecidableEq

/-- External record handle: page id and slot index. -/
structure RecordID where
  pageNo : Int
  slotNo : Int
deriving DecidableEq

/-- The page: header fields, slot directory and data region.  The slot
directory and data are total functions on Int, so reads at indices the
code never initialised (stale memory) are defined and arbitrary. -/
structure PageState where
  pid : Int
  nextPage : Int
  prevPage : Int
  numOfSlots : Int
  fillPtr : Int
  freeSpace : Int
  pageType : Int
  slots : Int → Slot
  data : Int → Int

/-- Modelled from the spec: the fixed data-region capacity
HEAPPAGE_DATA_SIZE comes from the missing header heappage.h; no claim
depends on its numeric value, which is fixed here for concrete
evaluation. -/
def HEAPPAGE_DATA_SIZE : Int := 1000

/-- Modelled from the spec: sizeof(Slot) for two int32 fields, the
slot-header size used by the free-space accounting. -/
def slotSize : Int := 8

/-- Modelled from the spec: the invalid page-link sentinel from the
missing header. -/
def INVALID_PAGE : Int := -1

/-- Pointwise update of the slot directory. -/
def updFn (f : Int → Slot) (i : Int) (v : Slot) : Int → Slot :=
  fun j => if j = i then v else f j

/-- memcpy from an external buffer bs into the data region at off. -/
def writeBytes (d : Int → Int) (off : Int) (bs : List Int) : Int → Int :=
  fun a => if off ≤ a ∧ a < off + bs.length then bs.getD (a - off).toNat 0 else d a

/-- memcpy of len bytes inside the data region from src to dst; the
source bytes are read before any are overwritten, as memcpy assumes
non-overlapping regions. -/
def copyRegion (d : Int → Int) (dst src : Int) (len : Nat) : Int → Int :=
  fun a => if dst ≤ a ∧ a < dst + len then d (src + (a - dst)) else d a

/-- Copy len bytes out of the data region starting at off. -/
def readBytes (d : Int → Int) (off : Int) (len : Nat) : List Int :=
  (List.range len).map (fun k : Nat => d (off + (k : Int)))

/-- HeapPage::Init — resets the header; slot and data memory are left as
they were (the C++ constructor does not clear them). -/
def hpInit (pageNo : Int) (s : PageState) : PageState :=
  { s with pid := pageNo, nextPage := INVALID_PAGE, prevPage := INVALID_PAGE,
           numOfSlots := 0, fillPtr := 0, freeSpace := HEAPPAGE_DATA_SIZE }

/-- HeapPage::SetNextPage. -/
def setNextPage (pageNo : Int) (s : PageState) : PageState :=
  { s with nextPage := pageNo }

/-- HeapPage::SetPrevPage. -/
def setPrevPage (pageNo : Int) (s : PageState) : PageState :=
  { s with prevPage := pageNo }

/-- HeapPage::AvailableSpace — returns the freeSpace counter. -/
def availableSpace (s : PageState) : Int :=
  s.freeSpace

/-- HeapPage::InsertRecord.  Returns the status, the record id output
parameter (none when the early return leaves it unassigned) and the
resulting page.  Mirrors heappage.cpp lines 68-93: the guard compares
the length against freeSpace alone, then fillPtr, freeSpace, the new
slot, the rid and numOfSlots are updated and the bytes are copied to
offset HEAPPAGE_DATA_SIZE - (fillPtr + length). -/
def insertRecord (rec : List Int) (s : PageState) : Status × Option RecordID × PageState :=
  if s.freeSpace < (rec.length : Int) then (Status.DONE, none, s)
  else
    (Status.OK, some ⟨s.pid, s.numOfSlots⟩,
      { s with
        fillPtr := s.fillPtr + rec.length,
        freeSpace := s.freeSpace - rec.length - slotSize,
        slots := updFn s.slots s.numOfSlots
          ⟨HEAPPAGE_DATA_SIZE - (s.fillPtr + rec.length), rec.length⟩,
        numOfSlots := s.numOfSlots + 1,
        data := writeBytes s.data (HEAPPAGE_DATA_SIZE - (s.fillPtr + rec.length)) rec })

/-- The shift loop of HeapPage::DeleteRecord (lines 128-132): for each
slot index i from rid.slotNo + 1 up to numOfSlots - 1, copy rlen bytes
(the deleted record length, as the C++ memcpy does) from the slot
offset to offset + rlen and add rlen to the slot offset.  The fuel is
the exact iteration count (numOfSlots - start).toNat. -/
def shiftLoop : Nat → Int → Int → PageState → PageState
  | 0, _, _, st => st
  | fuel+1, rlen, i, st =>
    if i < st.numOfSlots then
      shiftLoop fuel rlen (i+1)
        { st with
          data := copyRegion st.data ((st.slots i).offset + rlen) ((st.slots i).offset) rlen.toNat,
          slots := updFn st.slots i ⟨(st.slots i).offset + rlen, (st.slots i).length⟩ }
    else st

/-- HeapPage::DeleteRecord (lines 105-135).  Note the code checks only
the page id and the deleted sentinel of the addressed slot entry; there
is no range check on rid.slotNo. -/
def deleteRecord (rid : RecordID) (s : PageState) : Status × PageState :=
  if rid.pageNo ≠ s.pid then (Status.FAIL, s)
  else if (s.slots rid.slotNo).offset = -1 then (Status.FAIL, s)
  else
    (Status.OK,
      shiftLoop (s.numOfSlots - (rid.slotNo + 1)).toNat ((s.slots rid.slotNo).length)
        (rid.slotNo + 1)
        { s with
          slots := updFn s.slots rid.slotNo ⟨-1, (s.slots rid.slotNo).length⟩,
          freeSpace := s.freeSpace + (s.slots rid.slotNo).length,
          fillPtr := s.fillPtr - (s.slots rid.slotNo).length })

/-- HeapPage::GetRecord (lines 213-230): checks the page id, then the
range of the slot index and the deleted sentinel, and copies the bytes
out; none models the FAIL return. -/
def getRecord (rid : RecordID) (s : PageState) : Option (List Int) :=
  if rid.pageNo ≠ s.pid then none
  else if rid.slotNo ≥ s.numOfSlots ∨ (s.slots rid.slotNo).offset = -1 then none
  else some (readBytes s.data ((s.slots rid.slotNo).offset) ((s.slots rid.slotNo).length).toNat)

/-- The scan loop shared by FirstRecord and NextRecord: starting at
index i, return the first index below numOfSlots whose slot is not
deleted.  Fuel equals the remaining iteration count
(numOfSlots - i).toNat at every call site. -/
def findLive (s : PageState) : Nat → Int → Option Int
  | 0, _ => none
  | fuel+1, i =>
    if i < s.numOfSlots then
      if (s.slots i).offset ≠ -1 then some i
      else findLive s fuel (i+1)
    else none

/-- HeapPage::FirstRecord (lines 147-169); none models the DONE return. -/
def firstRecord (s : PageState) : Option RecordID :=
  if s.numOfSlots = 0 then none
  else (findLive s s.numOfSlots.toNat 0).map (fun j => ⟨s.pid, j⟩)

/-- HeapPage::NextRecord (lines 181-201); none models the DONE return. -/
def nextRecord (cur : RecordID) (s : PageState) : Option RecordID :=
  if cur.pageNo ≠ s.pid then none
  else (findLive s (s.numOfSlots - (cur.slotNo + 1)).toNat (cur.slotNo + 1)).map
    (fun j => ⟨s.pid, j⟩)

/-- The counting loop of HeapPage::GetNumOfRecords: number of slot
indices in [i, i + fuel) whose offset is the deleted sentinel. -/
def countDeleted (s : PageState) : Nat → Int → Int
  | 0, _ => 0
  | fuel+1, i =>
    (if (s.slots i).offset = -1 then 1 else 0) + countDeleted s fuel (i+1)

/-- HeapPage::GetNumOfRecords (lines 337-349). -/
def getNumOfRecords (s : PageState) : Int :=
  s.numOfSlots - countDeleted s s.numOfSlots.toNat 0

/-- The first loop of HeapPage::CompactSlotDir (lines 306-310): retreat
e while e < numOfSlots and the slot at e is deleted.  The C++ loop can
walk below index 0 into adjacent memory; the model stops with none once
the fuel (enough to reach index -1) is exhausted. -/
def findEnd (s : PageState) : Nat → Int → Option Int
  | 0, _ => none
  | fuel+1, e =>
    if e < s.numOfSlots ∧ (s.slots e).offset = -1 then findEnd s fuel (e-1)
    else some e

/-- The second loop of HeapPage::CompactSlotDir (lines 311-331).  Each
iteration advances start, retreats e, or moves the slot at e into
position start doing both, so e - start strictly decreases; the fuel at
the call site exceeds the initial distance, and none (fuel exhausted
while start < e) is unreachable there. -/
def compactLoop : Nat → Int → Int → (Int → Slot) → Option ((Int → Slot) × Int)
  | 0, start, e, sl => if start < e then none else some (sl, start)
  | fuel+1, start, e, sl =>
    if start < e then
      if (sl start).offset ≠ -1 then compactLoop fuel (start+1) e sl
      else if (sl e).offset = -1 then compactLoop fuel start (e-1) sl
      else compactLoop fuel (start+1) (e-1) (updFn sl start (sl e))
    else some (sl, start)

/-- HeapPage::CompactSlotDir (lines 304-335): after the two loops,
freeSpace grows by sizeof(Slot) * (numOfSlots - start) and numOfSlots
becomes start. -/
def compactSlotDir (s : PageState) : Option PageState :=
  match findEnd s (s.numOfSlots.toNat + 1) (s.numOfSlots - 1) with
  | none => none
  | some e =>
    match compactLoop (e.toNat + 1) 0 e s.slots with
    | none => none
    | some p =>
      some { s with
        slots := p.1,
        freeSpace := s.freeSpace + slotSize * (s.numOfSlots - p.2),
        numOfSlots := p.2 }

/-- The slot numbers produced by repeatedly calling NextRecord on the
previously returned RecordID. -/
def iterFrom (s : PageState) : Nat → RecordID → List Int
  | 0, _ => []
  | fuel+1, cur =>
    match nextRecord cur s with
    | none => []
    | some rid => rid.slotNo :: iterFrom s fuel rid

/-- The full iteration sequence: FirstRecord, then NextRecord until the
EndOfSequence return. -/
def iterSeq (s : PageState) : List Int :=
  match firstRecord s with
  | none => []
  | some rid => rid.slotNo :: iterFrom s s.numOfSlots.toNat rid

/-- Reference enumeration of live slot indices: among i, i+1, ...,
i+fuel-1, those whose slot is not deleted, in increasing order. -/
def liveFrom (s : PageState) : Nat → Int → List Int
  | 0, _ => []
  | fuel+1, i =>
    if (s.slots i).offset ≠ -1 then i :: liveFrom s fuel (i+1)
    else liveFrom s fuel (i+1)

/-- The states a page passes through: Init on an arbitrary buffer, then
any interleaving of the page operations (the non-mutating operations do
not change the state). -/
inductive Reachable : PageState → Prop where
  | init : ∀ (s0 : PageState) (p : Int), Reachable (hpInit p s0)
  | insert : ∀ (s : PageState) (rec : List Int),
      Reachable s → Reachable (insertRecord rec s).2.2
  | delete : ∀ (s : PageState) (rid : RecordID),
      Reachable s → Reachable (deleteRecord rid s).2
  | compact : ∀ (s s' : PageState),
      Reachable s → compactSlotDir s = some s' → Reachable s'
  | setNext : ∀ (s : PageState) (p : Int),
      Reachable s → Reachable (setNextPage p s)
  | setPrev : ∀ (s : PageState) (p : Int),
      Reachable s → Reachable (setPrevPage p s)

/-- A concrete page buffer with zeroed data and an all-deleted stale
slot directory, used as the Init argument of concrete scenarios. -/
def emptyPage : PageState :=
  { pid := 0, nextPage := -1, prevPage := -1, numOfSlots := 0, fillPtr := 0,
    freeSpace := 0, pageType := 0, slots := fun _ => ⟨-1, 0⟩, data := fun _ => 0 }

/-- Reading back exactly the range written by writeBytes returns the
written list. -/
theorem readBytes_writeBytes (d : Int → Int) (off : Int) (bs : List Int) :
    readBytes (writeBytes d off bs) off bs.length = bs := by
  apply List.ext_getElem
  · simp [readBytes]
  · intro i h1 h2
    simp only [readBytes, List.getElem_map, List.getElem_range, writeBytes]
    have hin : off ≤ off + (i : Int) ∧ off + (i : Int) < off + (bs.length : Int) := by
      constructor <;> omega
    rw [if_pos hin]
    have hcast : ((off : Int) + (i : Int) - off).toNat = i := by omega
    rw [hcast, List.getD_eq_getElem]

/-- The delete shift loop never changes the header fields. -/
theorem shiftLoop_header (fuel : Nat) (rlen : Int) :
    ∀ (i : Int) (st : PageState),
      (shiftLoop fuel rlen i st).pid = st.pid ∧
      (shiftLoop fuel rlen i st).numOfSlots = st.numOfSlots ∧
      (shiftLoop fuel rlen i st).fillPtr = st.fillPtr ∧
      (shiftLoop fuel rlen i st).freeSpace = st.freeSpace := by
  induction fuel with
  | zero => intro i st; simp [shiftLoop]
  | succ fuel ih =>
    intro i st
    by_cases h : i < st.numOfSlots
    · simpa [shiftLoop, h] using ih (i+1) _
    · simp [shiftLoop, h]

/-- With the exact fuel used by DeleteRecord, the shift loop adds rlen
to the offset of every slot with index in [i, numOfSlots) and keeps its
length; all other slot entries are untouched. -/
theorem shiftLoop_slots (fuel : Nat) (rlen : Int) :
    ∀ (i : Int) (st : PageState), fuel = (st.numOfSlots - i).toNat →
    ∀ (j : Int), (shiftLoop fuel rlen i st).slots j =
      if i ≤ j ∧ j < st.numOfSlots
      then ⟨(st.slots j).offset + rlen, (st.slots j).length⟩
      else st.slots j := by
  induction fuel with
  | zero =>
    intro i st hk j
    have hno : ¬ (i ≤ j ∧ j < st.numOfSlots) := by omega
    simp [shiftLoop, hno]
  | succ fuel ih =>
    intro i st hk j
    have hi : i < st.numOfSlots := by omega
    have hk2 : fuel = (st.numOfSlots - (i+1)).toNat := by omega
    simp only [shiftLoop, if_pos hi]
    rw [ih (i+1)
      { st with
        data := copyRegion st.data ((st.slots i).offset + rlen) ((st.slots i).offset) rlen.toNat,
        slots := updFn st.slots i ⟨(st.slots i).offset + rlen, (st.slots i).length⟩ }
      hk2 j]
    simp only [updFn]
    by_cases hji : j = i
    · subst hji
      have hf1 : ¬ (j + 1 ≤ j) := by omega
      simp [hf1, hi]
    · rw [if_neg hji]
      by_cases hr : i + 1 ≤ j ∧ j < st.numOfSlots
      · rw [if_pos hr, if_pos (show i ≤ j ∧ j < st.numOfSlots by omega)]
      · rw [if_neg hr, if_neg (show ¬ (i ≤ j ∧ j < st.numOfSlots) by omega)]

/-- The compaction main loop never moves the start cursor backward. -/
theorem compactLoop_start_le (fuel : Nat) :
    ∀ (start e : Int) (sl : Int → Slot) (p : (Int → Slot) × Int),
      compactLoop fuel start e sl = some p → start ≤ p.2 := by
  induction fuel with
  | zero =>
    intro start e sl p h
    by_cases hlt : start < e
    · simp [compactLoop, hlt] at h
    · simp only [compactLoop, if_neg hlt, Option.some.injEq] at h
      subst h
      exact le_refl start
  | succ fuel ih =>
    intro start e sl p h
    by_cases hlt : start < e
    · simp only [compactLoop, if_pos hlt] at h
      by_cases h1 : (sl start).offset ≠ -1
      · rw [if_pos h1] at h
        have := ih (start+1) e sl p h
        omega
      · rw [if_neg h1] at h
        by_cases h2 : (sl e).offset = -1
        · rw [if_pos h2] at h
          exact ih start (e-1) sl p h
        · rw [if_neg h2] at h
          have := ih (start+1) (e-1) _ p h
          omega
    · simp only [compactLoop, if_neg hlt, Option.some.injEq] at h
      subst h
      exact le_refl start

/-- Every reachable page state has a nonnegative slot count and
satisfies the free-space accounting equation. -/
theorem reachable_wf (s : PageState) (h : Reachable s) :
    0 ≤ s.numOfSlots ∧
    s.freeSpace = HEAPPAGE_DATA_SIZE - s.fillPtr - s.numOfSlots * slotSize := by
  induction h with
  | init s0 p => simp [hpInit]
  | insert s rec hr ih =>
    by_cases hg : s.freeSpace < (rec.length : Int)
    · simpa [insertRecord, hg] using ih
    · simp only [insertRecord, if_neg hg]
      simp only [slotSize] at ih ⊢
      omega
  | delete s rid hr ih =>
    by_cases h1 : rid.pageNo ≠ s.pid
    · simpa [deleteRecord, h1] using ih
    · by_cases h2 : (s.slots rid.slotNo).offset = -1
      · simpa [deleteRecord, h1, h2] using ih
      · simp only [deleteRecord, if_neg h1, if_neg h2]
        obtain ⟨hp, hn, hf, hs⟩ :=
          shiftLoop_header (s.numOfSlots - (rid.slotNo + 1)).toNat
            ((s.slots rid.slotNo).length) (rid.slotNo + 1)
            { s with
              slots := updFn s.slots rid.slotNo ⟨-1, (s.slots rid.slotNo).length⟩,
              freeSpace := s.freeSpace + (s.slots rid.slotNo).length,
              fillPtr := s.fillPtr - (s.slots rid.slotNo).length }
        rw [hn, hf, hs]
        simp only [slotSize] at ih ⊢
        omega
  | compact s s2 hr heq ih =>
    rw [compactSlotDir.eq_def] at heq
    split at heq
    · exact absurd heq (by simp)
    · split at heq
      · exact absurd heq (by simp)
      · next p hcl =>
        simp only [Option.some.injEq] at heq
        have hst : (0:Int) ≤ p.2 := compactLoop_start_le _ _ _ _ _ hcl
        rw [← heq]
        simp only [slotSize] at ih ⊢
        constructor
        · exact hst
        · omega
  | setNext s p hr ih => simpa [setNextPage] using ih
  | setPrev s p hr ih => simpa [setPrevPage] using ih

/-- The spec scenario page after Init and inserting the 4 bytes AAAA. -/
def pageA : PageState := (insertRecord [65, 65, 65, 65] (hpInit 7 emptyPage)).2.2

/-- The spec scenario page after additionally inserting the 6 bytes
BBBBBB. -/
def pageAB : PageState := (insertRecord [66, 66, 66, 66, 66, 66] pageA).2.2

/-- A page with zero slots whose slot-directory memory at index 0 holds
a stale entry that does not carry the deleted sentinel. -/
def stalePage : PageState :=
  { pid := 7, nextPage := -1, prevPage := -1, numOfSlots := 0, fillPtr := 0,
    freeSpace := 1000, pageType := 0,
    slots := fun i => if i = 0 then ⟨5, 2⟩ else ⟨-1, 0⟩, data := fun _ => 0 }

/-- A second page with zero slots and a stale non-deleted entry at
index 0. -/
def stalePage2 : PageState :=
  { pid := 9, nextPage := -1, prevPage := -1, numOfSlots := 0, fillPtr := 0,
    freeSpace := 1000, pageType := 0,
    slots := fun i => if i = 0 then ⟨3, 1⟩ else ⟨-1, 0⟩, data := fun _ => 0 }

/-- A page whose freeSpace no longer covers a record plus its slot
header, but still covers the record alone. -/
def tightPage : PageState :=
  { pid := 2, nextPage := -1, prevPage := -1, numOfSlots := 0, fillPtr := 0,
    freeSpace := 4, pageType := 0, slots := fun _ => ⟨-1, 0⟩, data := fun _ => 0 }

/-- C4: the free-space accounting equation freeSpace = capacity -
fillPtr - numOfSlots * slotHeaderSize holds after Init and is preserved
by every page operation, i.e. it holds in every reachable page state. -/
theorem claim_c4_freeSpace_invariant (s : PageState) (h : Reachable s) :
    s.freeSpace = HEAPPAGE_DATA_SIZE - s.fillPtr - s.numOfSlots * slotSize :=
  (reachable_wf s h).2

/-- C4 witness: the invariant evaluated on the concrete state produced
by Init. -/
theorem claim_c4_witness :
    (hpInit 1 emptyPage).freeSpace =
      HEAPPAGE_DATA_SIZE - (hpInit 1 emptyPage).fillPtr
        - (hpInit 1 emptyPage).numOfSlots * slotSize :=
  claim_c4_freeSpace_invariant (hpInit 1 emptyPage) (Reachable.init emptyPage 1)

/-- C5: InsertRecord fails with InsufficientSpace (status DONE, state
unchanged) exactly when the record length exceeds freeSpace; on success
the returned RecordID is (pageId, old numOfSlots), the new slot points
at data offset capacity - (fillPtr + length) where the inserted bytes
are readable, and AvailableSpace drops by length + slotHeaderSize. -/
theorem claim_c5_insertRecord_contract (s : PageState) (rec : List Int) :
    ((insertRecord rec s).1 = Status.DONE ↔ s.freeSpace < (rec.length : Int))
    ∧ (s.freeSpace < (rec.length : Int) → (insertRecord rec s).2.2 = s)
    ∧ ((rec.length : Int) ≤ s.freeSpace →
        (insertRecord rec s).1 = Status.OK
        ∧ (insertRecord rec s).2.1 = some ⟨s.pid, s.numOfSlots⟩
        ∧ ((insertRecord rec s).2.2.slots s.numOfSlots).offset
            = HEAPPAGE_DATA_SIZE - (s.fillPtr + (rec.length : Int))
        ∧ ((insertRecord rec s).2.2.slots s.numOfSlots).length = (rec.length : Int)
        ∧ readBytes ((insertRecord rec s).2.2.data)
            (HEAPPAGE_DATA_SIZE - (s.fillPtr + (rec.length : Int))) rec.length = rec
        ∧ availableSpace (insertRecord rec s).2.2
            = availableSpace s - ((rec.length : Int) + slotSize)) := by
  by_cases hg : s.freeSpace < (rec.length : Int)
  · refine ⟨by simp [insertRecord, hg], fun _ => by simp [insertRecord, hg], fun hle => ?_⟩
    exact absurd hle (by omega)
  · refine ⟨by simp [insertRecord, hg], fun hc => absurd hc hg, fun hle => ?_⟩
    refine ⟨by simp [insertRecord, hg], by simp [insertRecord, hg], ?_, ?_, ?_, ?_⟩
    · simp [insertRecord, hg, updFn]
    · simp [insertRecord, hg, updFn]
    · simp only [insertRecord, if_neg hg]
      exact readBytes_writeBytes s.data (HEAPPAGE_DATA_SIZE - (s.fillPtr + (rec.length : Int))) rec
    · simp only [insertRecord, if_neg hg, availableSpace]
      ring

/-- C5 witness: the contract evaluated for inserting two bytes into a
freshly initialised page. -/
theorem claim_c5_witness :
    (insertRecord [1, 2] (hpInit 2 emptyPage)).1 = Status.OK
    ∧ (insertRecord [1, 2] (hpInit 2 emptyPage)).2.1
        = some ⟨(hpInit 2 emptyPage).pid, (hpInit 2 emptyPage).numOfSlots⟩ :=
  ⟨((claim_c5_insertRecord_contract (hpInit 2 emptyPage) [1, 2]).2.2 (by decide)).1,
   ((claim_c5_insertRecord_contract (hpInit 2 emptyPage) [1, 2]).2.2 (by decide)).2.1⟩

/-- C9 (implicit): when freeSpace - slotHeaderSize < length <=
freeSpace, InsertRecord still succeeds because the guard compares the
length against freeSpace alone, and AvailableSpace afterwards returns
the negative value freeSpace - length - slotHeaderSize. -/
theorem claim_c9_insert_overcommit (s : PageState) (rec : List Int)
    (h1 : s.freeSpace - slotSize < (rec.length : Int))
    (h2 : (rec.length : Int) ≤ s.freeSpace) :
    (insertRecord rec s).1 = Status.OK
    ∧ availableSpace (insertRecord rec s).2.2
        = s.freeSpace - (rec.length : Int) - slotSize
    ∧ availableSpace (insertRecord rec s).2.2 < 0 := by
  have hg : ¬ s.freeSpace < (rec.length : Int) := by omega
  refine ⟨by simp [insertRecord, hg], by simp [insertRecord, hg, availableSpace], ?_⟩
  simp only [slotSize] at h1
  simp only [insertRecord, if_neg hg, availableSpace, slotSize]
  omega

/-- C9 witness: a 3-byte record inserted into a page with 4 bytes of
free space succeeds and leaves AvailableSpace at -7. -/
theorem claim_c9_witness :
    ((insertRecord [1, 2, 3] tightPage).1 = Status.OK
    ∧ availableSpace (insertRecord [1, 2, 3] tightPage).2.2
        = tightPage.freeSpace - ((([1, 2, 3] : List Int).length : Nat) : Int) - slotSize
    ∧ availableSpace (insertRecord [1, 2, 3] tightPage).2.2 < 0) :=
  claim_c9_insert_overcommit tightPage [1, 2, 3] (by decide) (by decide)

/-- C3 counterexample: on a page with zero slots whose stale
slot-directory entry at index 0 lacks the deleted sentinel,
DeleteRecord on the out-of-range slot index 0 returns OK, although the
claim requires failure for every index outside [0, numOfSlots). -/
theorem claim_c3_counterexample :
    (⟨7, 0⟩ : RecordID).slotNo ≥ stalePage.numOfSlots
    ∧ (deleteRecord ⟨7, 0⟩ stalePage).1 = Status.OK
    ∧ (deleteRecord ⟨7, 0⟩ stalePage).1 ≠ Status.FAIL := by decide

/-- C3 amended: DeleteRecord fails with RecordNotFound exactly when
rid.pageNo differs from the page id, or the slot-directory entry read
without any range check at index rid.slotNo carries the deleted
sentinel; whenever it fails, the entire page state is unchanged. -/
theorem claim_c3_deleteRecord_raises_iff (s : PageState) (rid : RecordID) :
    ((deleteRecord rid s).1 = Status.FAIL
      ↔ rid.pageNo ≠ s.pid ∨ (s.slots rid.slotNo).offset = -1)
    ∧ ((deleteRecord rid s).1 = Status.FAIL → (deleteRecord rid s).2 = s) := by
  by_cases h1 : rid.pageNo ≠ s.pid
  · simp [deleteRecord, h1]
  · by_cases h2 : (s.slots rid.slotNo).offset = -1
    · simp [deleteRecord, h1, h2]
    · simp [deleteRecord, h1, h2]

/-- C3 amended witness: deleting an already-deleted slot on a fresh
page fails and leaves the state unchanged. -/
theorem claim_c3_witness :
    (deleteRecord ⟨1, 5⟩ (hpInit 1 emptyPage)).2 = hpInit 1 emptyPage :=
  (claim_c3_deleteRecord_raises_iff (hpInit 1 emptyPage) ⟨1, 5⟩).2
    ((claim_c3_deleteRecord_raises_iff (hpInit 1 emptyPage) ⟨1, 5⟩).1.mpr
      (Or.inr (by decide)))

/-- C8 counterexample: a page with zero slots and a stale non-deleted
entry at index 0; GetRecord on slot 0 fails through its range check
while DeleteRecord on the same RecordID does not fail. -/
theorem claim_c8_counterexample :
    getRecord ⟨9, 0⟩ stalePage2 = none
    ∧ (deleteRecord ⟨9, 0⟩ stalePage2).1 ≠ Status.FAIL := by decide

/-- C8 amended: the two validity checks agree for every RecordID whose
slot index is below numOfSlots; they can differ only for slotNo >=
numOfSlots, where GetRecord always fails but DeleteRecord consults the
unchecked stale directory entry. -/
theorem claim_c8_get_delete_checks_agree (s : PageState) (rid : RecordID)
    (h : rid.slotNo < s.numOfSlots) :
    (getRecord rid s = none ↔ (deleteRecord rid s).1 = Status.FAIL) := by
  have h3 : ¬ (rid.slotNo ≥ s.numOfSlots) := not_le.mpr h
  by_cases h1 : rid.pageNo ≠ s.pid
  · simp [getRecord, deleteRecord, h1]
  · by_cases h2 : (s.slots rid.slotNo).offset = -1
    · simp [getRecord, deleteRecord, h1, h2]
    · simp [getRecord, deleteRecord, h1, h2, h3]

/-- C8 amended witness: on the page holding one live record, slot 0 is
in range and the two checks agree (both succeed). -/
theorem claim_c8_witness :
    (⟨7, 0⟩ : RecordID).slotNo < pageA.numOfSlots
    ∧ (getRecord ⟨7, 0⟩ pageA = none ↔ (deleteRecord ⟨7, 0⟩ pageA).1 = Status.FAIL) :=
  ⟨by decide, claim_c8_get_delete_checks_agree pageA ⟨7, 0⟩ (by decide)⟩

/-- C1 (code bug): in the spec scenario, after inserting AAAA then
BBBBBB, slot 1 holds BBBBBB; DeleteRecord on slot 0 succeeds, but the
shift loop copies only rlength = 4 bytes of the 6-byte record instead
of its full length, so slot 1 afterwards reads back BBBBAA: a live
record other than the deleted one is not preserved byte-identically. -/
theorem claim_c1_delete_corrupts_longer_record :
    getRecord ⟨7, 1⟩ pageAB = some [66, 66, 66, 66, 66, 66]
    ∧ (deleteRecord ⟨7, 0⟩ pageAB).1 = Status.OK
    ∧ getRecord ⟨7, 1⟩ (deleteRecord ⟨7, 0⟩ pageAB).2 = some [66, 66, 66, 66, 65, 65]
    ∧ getRecord ⟨7, 1⟩ (deleteRecord ⟨7, 0⟩ pageAB).2 ≠ some [66, 66, 66, 66, 66, 66] := by
  decide

/-- C2 (code bug): the page holding the single live record AAAA has one
live slot, yet CompactSlotDir returns with numOfSlots = 0 (the main
loop stops when the cursors meet on a live slot, and start is never
advanced past it), dropping the live slot, and adds slotSize to
freeSpace although no deleted directory entry existed. -/
theorem claim_c2_compact_drops_live_slot :
    getNumOfRecords pageA = 1
    ∧ getRecord ⟨7, 0⟩ pageA = some [65, 65, 65, 65]
    ∧ (compactSlotDir pageA).map PageState.numOfSlots = some 0
    ∧ (compactSlotDir pageA).map PageState.freeSpace = some (pageA.freeSpace + slotSize) := by
  decide

/-- C6: on any page state satisfying the documented free-space
invariant, when InsertRecord succeeds and returns rid, GetRecord on rid
immediately afterwards succeeds and returns bytes identical to the
inserted bytes (the matching length is forced by the list equality). -/
theorem claim_c6_insert_get_roundtrip (s : PageState) (rec : List Int)
    (h0 : 0 ≤ s.numOfSlots)
    (hinv : s.freeSpace = HEAPPAGE_DATA_SIZE - s.fillPtr - s.numOfSlots * slotSize)
    (hok : (insertRecord rec s).1 = Status.OK)
    (rid : RecordID) (hrid : (insertRecord rec s).2.1 = some rid) :
    getRecord rid (insertRecord rec s).2.2 = some rec := by
  by_cases hg : s.freeSpace < (rec.length : Int)
  · simp [insertRecord, hg] at hok
  · simp only [insertRecord, if_neg hg, Option.some.injEq] at hrid
    subst hrid
    have hslot8 : slotSize = 8 := rfl
    have hoffne : HEAPPAGE_DATA_SIZE - (s.fillPtr + (rec.length : Int)) ≠ -1 := by
      rw [hslot8] at hinv
      omega
    have hge : ¬ ((s.numOfSlots : Int) ≥ s.numOfSlots + 1) := by omega
    simp [insertRecord, hg, getRecord, updFn, hoffne, hge, readBytes_writeBytes]

/-- C6 witness: inserting three bytes into a freshly initialised page
and reading them back through the returned RecordID. -/
theorem claim_c6_witness :
    getRecord ⟨1, 0⟩ (insertRecord [9, 8, 7] (hpInit 1 emptyPage)).2.2 = some [9, 8, 7] :=
  claim_c6_insert_get_roundtrip (hpInit 1 emptyPage) [9, 8, 7] (by decide) (by decide)
    (by decide) ⟨1, 0⟩ (by decide)

/-- C10 (implicit): if slot j is deleted and some slot i < j is live
with record length at least 1, then DeleteRecord on slot i succeeds and
its shift loop, which does not skip deleted slots, moves the offset of
slot j from the sentinel -1 to the non-negative value rlength - 1;
afterwards GetRecord on (pageId, j) succeeds although it failed
before. -/
theorem claim_c10_delete_resurrects (s : PageState) (i j : Int)
    (hij : i < j) (hjn : j < s.numOfSlots)
    (hjdel : (s.slots j).offset = -1)
    (hilive : (s.slots i).offset ≠ -1)
    (hlen : 1 ≤ (s.slots i).length) :
    getRecord ⟨s.pid, j⟩ s = none
    ∧ (deleteRecord ⟨s.pid, i⟩ s).1 = Status.OK
    ∧ ((deleteRecord ⟨s.pid, i⟩ s).2.slots j).offset = -1 + (s.slots i).length
    ∧ 0 ≤ ((deleteRecord ⟨s.pid, i⟩ s).2.slots j).offset
    ∧ getRecord ⟨s.pid, j⟩ (deleteRecord ⟨s.pid, i⟩ s).2 ≠ none := by
  have hji : j ≠ i := by omega
  set s1 : PageState :=
    { s with
      slots := updFn s.slots i ⟨-1, (s.slots i).length⟩,
      freeSpace := s.freeSpace + (s.slots i).length,
      fillPtr := s.fillPtr - (s.slots i).length } with hs1
  have hdel : deleteRecord ⟨s.pid, i⟩ s
      = (Status.OK,
          shiftLoop (s.numOfSlots - (i + 1)).toNat ((s.slots i).length) (i + 1) s1) := by
    rw [hs1]
    simp [deleteRecord, hilive]
  have hn1 : s1.numOfSlots = s.numOfSlots := by rw [hs1]
  have hp1 : s1.pid = s.pid := by rw [hs1]
  have hsl1 : s1.slots j = s.slots j := by
    rw [hs1]
    simp [updFn, hji]
  have hslots := shiftLoop_slots (s.numOfSlots - (i + 1)).toNat ((s.slots i).length)
      (i + 1) s1 (by rw [hn1]) j
  rw [hn1, hsl1] at hslots
  have hcond : i + 1 ≤ j ∧ j < s.numOfSlots := ⟨by omega, hjn⟩
  rw [if_pos hcond] at hslots
  obtain ⟨hp, hn, _, _⟩ := shiftLoop_header (s.numOfSlots - (i + 1)).toNat
      ((s.slots i).length) (i + 1) s1
  have hoffne : (s.slots j).offset + (s.slots i).length ≠ -1 := by omega
  have hoffne2 : (-1 : Int) + (s.slots i).length ≠ -1 := by omega
  have hge : ¬ (j ≥ s.numOfSlots) := not_le.mpr hjn
  refine ⟨by simp [getRecord, hjdel], by simp [hdel], ?_, ?_, ?_⟩
  · simp only [hdel, hslots, hjdel]
  · simp only [hdel, hslots, hjdel]
    omega
  · simp only [hdel]
    simp [getRecord, hp, hn, hp1, hn1, hslots, hge, hoffne, hoffne2, hjdel]

/-- A page with a live 2-byte record in slot 0 and a deleted slot 1. -/
def resPage : PageState :=
  { pid := 3, nextPage := -1, prevPage := -1, numOfSlots := 2, fillPtr := 2,
    freeSpace := 982, pageType := 0,
    slots := fun k => if k = 0 then ⟨998, 2⟩ else if k = 1 then ⟨-1, 4⟩ else ⟨-1, 0⟩,
    data := fun _ => 7 }

/-- C10 witness: deleting the live slot 0 on the concrete page turns
the deleted slot 1 back into a readable record. -/
theorem claim_c10_witness :
    ((0 : Int) < 1 ∧ (1 : Int) < resPage.numOfSlots
      ∧ (resPage.slots 1).offset = -1
      ∧ (resPage.slots 0).offset ≠ -1
      ∧ 1 ≤ (resPage.slots 0).length)
    ∧ (getRecord ⟨resPage.pid, 1⟩ resPage = none
      ∧ (deleteRecord ⟨resPage.pid, 0⟩ resPage).1 = Status.OK
      ∧ ((deleteRecord ⟨resPage.pid, 0⟩ resPage).2.slots 1).offset
          = -1 + (resPage.slots 0).length
      ∧ 0 ≤ ((deleteRecord ⟨resPage.pid, 0⟩ resPage).2.slots 1).offset
      ∧ getRecord ⟨resPage.pid, 1⟩ (deleteRecord ⟨resPage.pid, 0⟩ resPage).2 ≠ none) :=
  ⟨⟨by decide, by decide, by decide, by decide, by decide⟩,
   claim_c10_delete_resurrects resPage 0 1 (by decide) (by decide) (by decide)
     (by decide) (by decide)⟩

/-- If the scan finds no live slot with the exact fuel, the reference
enumeration over the same range is empty. -/
theorem findLive_none (s : PageState) :
    ∀ (fuel : Nat) (i : Int), fuel = (s.numOfSlots - i).toNat →
      findLive s fuel i = none → liveFrom s fuel i = [] := by
  intro fuel
  induction fuel with
  | zero => intro i hk h; rfl
  | succ fuel ih =>
    intro i hk h
    have hi : i < s.numOfSlots := by omega
    simp only [findLive, if_pos hi] at h
    by_cases hl : (s.slots i).offset ≠ -1
    · rw [if_pos hl] at h
      exact absurd h (by simp)
    · rw [if_neg hl] at h
      simp only [liveFrom, if_neg hl]
      exact ih (i+1) (by omega) h

/-- If the scan returns index j, then j is the first live index at or
after the start: j lies in [i, numOfSlots) and the reference
enumeration decomposes as j followed by the enumeration from j + 1. -/
theorem findLive_some (s : PageState) :
    ∀ (fuel : Nat) (i j : Int), fuel = (s.numOfSlots - i).toNat →
      findLive s fuel i = some j →
      i ≤ j ∧ j < s.numOfSlots ∧
        liveFrom s fuel i = j :: liveFrom s (s.numOfSlots - (j+1)).toNat (j+1) := by
  intro fuel
  induction fuel with
  | zero => intro i j hk h; exact absurd h (by simp [findLive])
  | succ fuel ih =>
    intro i j hk h
    have hi : i < s.numOfSlots := by omega
    simp only [findLive, if_pos hi] at h
    by_cases hl : (s.slots i).offset ≠ -1
    · rw [if_pos hl] at h
      simp only [Option.some.injEq] at h
      subst h
      refine ⟨le_refl i, hi, ?_⟩
      simp only [liveFrom, if_pos hl]
      have hfk : fuel = (s.numOfSlots - (i+1)).toNat := by omega
      rw [hfk]
    · rw [if_neg hl] at h
      obtain ⟨h1, h2, h3⟩ := ih (i+1) j (by omega) h
      refine ⟨by omega, h2, ?_⟩
      simp only [liveFrom, if_neg hl]
      exact h3

/-- With any fuel at least the remaining scan length, the operational
NextRecord iteration from a RecordID of this page produces exactly the
reference enumeration of live indices after its slot number. -/
theorem iterFrom_liveFrom (s : PageState) :
    ∀ (fuel : Nat) (cur : RecordID), cur.pageNo = s.pid →
      (s.numOfSlots - (cur.slotNo + 1)).toNat ≤ fuel →
      iterFrom s fuel cur
        = liveFrom s (s.numOfSlots - (cur.slotNo + 1)).toNat (cur.slotNo + 1) := by
  intro fuel
  induction fuel with
  | zero =>
    intro cur hpg hf
    have h0 : (s.numOfSlots - (cur.slotNo + 1)).toNat = 0 := by omega
    rw [h0]
    rfl
  | succ fuel ih =>
    intro cur hpg hf
    have hnp : ¬ (cur.pageNo ≠ s.pid) := by simp [hpg]
    simp only [iterFrom, nextRecord, if_neg hnp]
    cases hfl : findLive s (s.numOfSlots - (cur.slotNo + 1)).toNat (cur.slotNo + 1) with
    | none =>
      simp only [Option.map_none']
      exact (findLive_none s _ _ rfl hfl).symm
    | some j =>
      simp only [Option.map_some']
      obtain ⟨h1, h2, h3⟩ := findLive_some s _ _ j rfl hfl
      rw [h3]
      simp only [List.cons.injEq]
      exact ⟨trivial, ih ⟨s.pid, j⟩ rfl
        (show (s.numOfSlots - (j + 1)).toNat ≤ fuel by omega)⟩

/-- The full iteration sequence equals the reference enumeration of all
live indices. -/
theorem iterSeq_liveFrom (s : PageState) :
    iterSeq s = liveFrom s s.numOfSlots.toNat 0 := by
  by_cases hz : s.numOfSlots = 0
  · simp [iterSeq, firstRecord, hz, liveFrom]
  · simp only [iterSeq, firstRecord, if_neg hz]
    cases hfl : findLive s s.numOfSlots.toNat 0 with
    | none =>
      simp only [Option.map_none']
      exact (findLive_none s s.numOfSlots.toNat 0 (by omega) hfl).symm
    | some j =>
      simp only [Option.map_some']
      obtain ⟨h1, h2, h3⟩ := findLive_some s s.numOfSlots.toNat 0 j (by omega) hfl
      rw [h3]
      simp only [List.cons.injEq]
      exact ⟨trivial, iterFrom_liveFrom s s.numOfSlots.toNat ⟨s.pid, j⟩ rfl
        (show (s.numOfSlots - (j + 1)).toNat ≤ s.numOfSlots.toNat by omega)⟩

/-- The reference enumeration is the filter of the consecutive index
range. -/
theorem liveFrom_filter (s : PageState) :
    ∀ (fuel : Nat) (i : Int),
      liveFrom s fuel i
        = ((List.range fuel).map (fun k : Nat => i + (k : Int))).filter
            (fun j => !((s.slots j).offset == -1)) := by
  intro fuel
  induction fuel with
  | zero => intro i; rfl
  | succ fuel ih =>
    intro i
    have hfn : ((fun k : Nat => i + (k : Int)) ∘ Nat.succ)
        = (fun k : Nat => (i + 1) + (k : Int)) := by
      funext k
      simp only [Function.comp_apply, Nat.succ_eq_add_one]
      push_cast
      ring
    rw [List.range_succ_eq_map, List.map_cons, List.map_map, hfn, List.filter_cons]
    simp only [Nat.cast_zero, add_zero]
    by_cases hl : (s.slots i).offset ≠ -1
    · have hb : (!((s.slots i).offset == -1)) = true := by simp [hl]
      rw [hb, if_pos rfl]
      simp only [liveFrom, if_pos hl, ih (i+1)]
    · have hb : (!((s.slots i).offset == -1)) = false := by
        simp only [ne_eq, not_not] at hl
        simp [hl]
      rw [hb, if_neg (by simp)]
      simp only [liveFrom, if_neg hl, ih (i+1)]

/-- C7: the sequence FirstRecord, then repeated NextRecord on each
previously returned RecordID, visits exactly the non-deleted slot
indices of the page in strictly increasing order, each exactly once,
before the EndOfSequence return; and NextRecord returns EndOfSequence
whenever curRid.pageNo differs from the page id. -/
theorem claim_c7_iteration_order (s : PageState) :
    iterSeq s
      = ((List.range s.numOfSlots.toNat).map (fun k : Nat => ((k : Int)))).filter
          (fun j => !((s.slots j).offset == -1))
    ∧ (∀ cur : RecordID, cur.pageNo ≠ s.pid → nextRecord cur s = none) := by
  constructor
  · rw [iterSeq_liveFrom, liveFrom_filter]
    simp only [zero_add]
  · intro cur h
    simp [nextRecord, h]

/-- A page with live slots 0 and 2 and a deleted slot 1. -/
def iterPage : PageState :=
  { pid := 4, nextPage := -1, prevPage := -1, numOfSlots := 3, fillPtr := 7,
    freeSpace := 969, pageType := 0,
    slots := fun k => if k = 0 then ⟨995, 2⟩ else if k = 1 then ⟨-1, 3⟩ else ⟨993, 2⟩,
    data := fun _ => 1 }

/-- C7 witness: the iteration sequence of the concrete page equals the
filtered index range, and NextRecord on a foreign page id ends the
sequence. -/
theorem claim_c7_witness :
    iterSeq iterPage
      = ((List.range iterPage.numOfSlots.toNat).map (fun k : Nat => ((k : Int)))).filter
          (fun j => !((iterPage.slots j).offset == -1))
    ∧ nextRecord ⟨5, 0⟩ iterPage = none :=
  ⟨(claim_c7_iteration_order iterPage).1,
   (claim_c7_iteration_order iterPage).2 ⟨5, 0⟩ (by decide)⟩

end HeapPageModel
